import Mathlib

/-!
Shallow embedding of `driver_script.py` (class `DriverScript`), a base
framework for staged driver scripts.  Python `datetime` values and
`timedelta` values are embedded as integer microsecond counts (`Int`);
Python dictionaries (`self.durations`) as insertion-ordered association
lists; the `rich` console as a list of log entries; exceptions as an
`Option String` (the raised message) alongside the untouched state, or as
the error side of `Except`.
-/

/-- ASCII fragment of Python's regex class `\s` (` `, `\t`, `\n`, `\r`,
`\x0b` form feed is `\x0c`, vertical tab `\x0b`). -/
def isPySpace (c : Char) : Bool :=
  c = ' ' || c = '\t' || c = '\n' || c = '\r' || c = '\x0b' || c = '\x0c'

/-- The whitespace characters `shlex` splits words on (its default
`whitespace` attribute: space, tab, carriage return, newline). -/
def isShlexSpace (c : Char) : Bool :=
  c = ' ' || c = '\t' || c = '\r' || c = '\n'

/-- First character of a Python identifier (ASCII fragment: letter or
underscore). -/
def isIdentStart (c : Char) : Bool := c.isAlpha || c = '_'

/-- Continuation character of a Python identifier (ASCII fragment:
letter, digit, or underscore). -/
def isIdentCont (c : Char) : Bool := c.isAlphanum || c = '_'

/-- Python's `str.isidentifier` on the ASCII fragment: non-empty, first
character a letter or underscore, remaining characters letters, digits,
or underscores. -/
def pyIsIdentifier (s : String) : Bool :=
  match s.toList with
  | [] => false
  | c :: rest => isIdentStart c && rest.all isIdentCont

/-- `list(dict.fromkeys(xs))`: deduplicate a list keeping the FIRST
occurrence of each element, preserving order (Python dict insertion
order keeps the position of the first insertion of a key). -/
def dedupKeepFirst : List String → List String
  | [] => []
  | x :: xs => x :: dedupKeepFirst (xs.filter (fun y => y ≠ x))
termination_by l => l.length
decreasing_by
  simp only [List.length_cons]
  exact Nat.lt_succ_of_le (List.length_filter_le _ _)

/-- `DriverScript._add_stage(stage_name)`: validate the name with
`str.isidentifier`, raising `ValueError` (message naming the offending
stage name) if invalid, else set
`__class__.stages = list(dict.fromkeys(__class__.stages + [stage_name]))`.
The first component is the raised exception message, if any; the second
is the (possibly updated) shared `stages` class variable — left
untouched when the exception is raised. -/
def _add_stage (stage_name : String) (stages : List String) :
    Option String × List String :=
  if ¬ pyIsIdentifier stage_name then
    (some ("Stage name '" ++ stage_name ++
      "' must be a valid Python identifier."), stages)
  else
    (none, dedupKeepFirst (stages ++ [stage_name]))

/-- A sequence of registrations (successive `DriverScript.stage`
decorator applications, each of which calls `__class__._add_stage`),
stopping at the first raised exception. -/
def registerAll (names : List String) (stages : List String) :
    Option String × List String :=
  match names with
  | [] => (none, stages)
  | n :: rest =>
    match _add_stage n stages with
    | (none, stages') => registerAll rest stages'
    | (some e, stages') => (some e, stages')

/-- Python attribute lookup for `stages` on a subclass of
`DriverScript`: if the subclass's own dictionary has a `stages` entry it
shadows the base class's, otherwise the lookup falls through to the
single `DriverScript.stages` class variable.  `_add_stage` writes
through `__class__`, which is statically bound to `DriverScript`, so
registration always updates `base`, never `own`. -/
def stagesView (base : List String) (own : Option (List String)) :
    List String :=
  own.getD base

/-- Python dict assignment `d[k] = v` on an insertion-ordered
association list: overwrite in place if the key is present (keeping its
position), otherwise append at the end. -/
def dictAssign (k : String) (v : Int) :
    List (String × Int) → List (String × Int)
  | [] => [(k, v)]
  | (k', v') :: rest =>
    if k' = k then (k, v) :: rest else (k', v') :: dictAssign k v rest

/-- Zero-pad a natural number to the given width, as Python's
`%02d` / `%06d` format specifiers do. -/
def zeroPad (width : Nat) (n : Nat) : String :=
  let s := toString n
  if s.length < width then
    String.mk (List.replicate (width - s.length) '0') ++ s
  else s

/-- Python `str(timedelta)`, on a timedelta of `us` microseconds.
`timedelta` normalizes to `days` (possibly negative, by floor division)
plus a non-negative remainder below one day; the string is
`H:MM:SS[.ffffff]`, preceded by `D day, ` or `D days, ` when the day
count is non-zero (singular exactly when `|D| = 1`), the fractional
part printed only when the microsecond remainder is non-zero. -/
def strTimedelta (us : Int) : String :=
  let usPerDay : Int := 86400000000
  let days := Int.fdiv us usPerDay
  let rem := (Int.fmod us usPerDay).toNat
  let micro := rem % 1000000
  let secs := rem / 1000000
  let hh := secs / 3600
  let mm := secs % 3600 / 60
  let ss := secs % 60
  let frac := if micro = 0 then "" else "." ++ zeroPad 6 micro
  let core := toString hh ++ ":" ++ zeroPad 2 mm ++ ":" ++ zeroPad 2 ss ++ frac
  if days = 0 then core
  else
    toString days ++ (if days = 1 ∨ days = -1 then " day, " else " days, ")
      ++ core

/-- One message sent to the `rich` console (the opaque reporter sink):
either a styled `Panel` or a plain `console.log` line. -/
inductive LogEntry
  | panel (message : String) (style : String)
  | line (text : String)
  deriving DecidableEq, Repr

/-- The per-instance state of a `DriverScript` object: the attributes
set in `__init__` (with `datetime` values as integer microsecond
timestamps and the console as the list of entries logged so far), plus
a `user` component standing for whatever extra attributes a subclass
keeps for its stage bodies. -/
structure DriverState (υ : Type) where
  current_stage : String
  durations : List (String × Int)
  stage_start_time : Int
  stages_to_run : List String
  start_time : Int
  log : List LogEntry
  user : υ

/-- `DriverScript.__init__` (with both `datetime.now()` calls observing
time `t`): `current_stage` is the sentinel string, `durations` empty,
`stages_to_run` empty, and the console fresh. -/
def initDriverState {υ : Type} (t : Int) (user : υ) : DriverState υ :=
  { current_stage := "CURRENT STAGE NOT SET"
    durations := []
    stage_start_time := t
    stages_to_run := []
    start_time := t
    log := []
    user := user }

/-- `DriverScript.print_heading(message, color=...)`: log
`Panel(f"[bold]{message}", style=color)`. -/
def print_heading {υ : Type} (message : String) (color : String)
    (s : DriverState υ) : DriverState υ :=
  { s with log := s.log ++ [LogEntry.panel ("[bold]" ++ message) color] }

/-- `DriverScript._begin_stage(stage_name, heading)` with
`datetime.now()` observing time `t`: record the stage start time, set
the current stage, and print the heading (default color `cyan`). -/
def _begin_stage {υ : Type} (t : Int) (stage_name heading : String)
    (s : DriverState υ) : DriverState υ :=
  print_heading heading "cyan"
    { s with stage_start_time := t, current_stage := stage_name }

/-- `DriverScript._end_stage()` with `datetime.now()` observing time
`t`: store `t - stage_start_time` in `durations[current_stage]` and log
the stage-duration line. -/
def _end_stage {υ : Type} (t : Int) (s : DriverState υ) : DriverState υ :=
  let d := t - s.stage_start_time
  { s with
    durations := dictAssign s.current_stage d s.durations
    log := s.log ++ [LogEntry.line
      ("`" ++ s.current_stage ++ "` stage duration:  " ++ strTimedelta d)] }

/-- `DriverScript._skip_stage()`: log the skip notice. -/
def _skip_stage {υ : Type} (s : DriverState υ) : DriverState υ :=
  { s with log := s.log ++ [LogEntry.line "Skipping this stage."] }

/-- The wrapped function produced by the `DriverScript.stage(stage_name,
heading, skip_result=True)` decorator applied to work function `func`,
called on instance state `s` with forwarded argument `x`; the two
`datetime.now()` calls (in `_begin_stage` and `_end_stage`) observe
`tBegin` and `tEnd`.  The work function receives the instance (it may
read and write the state) and either returns a result or raises (the
`Except.error` side, with the state as mutated up to the raise).  The
`try`/`except` re-raises the original exception object `e` unchanged
after `_end_stage` runs, so `_end_stage` runs on every path. -/
def stage {υ α ε ι : Type} (stage_name heading : String) (skip_result : α)
    (func : DriverState υ → ι → Except ε α × DriverState υ)
    (tBegin tEnd : Int) (s : DriverState υ) (x : ι) :
    Except ε α × DriverState υ :=
  let s1 := _begin_stage tBegin stage_name heading s
  if stage_name ∈ s1.stages_to_run then
    match func s1 x with
    | (Except.ok r, s2) => (Except.ok r, _end_stage tEnd s2)
    | (Except.error e, s2) => (Except.error e, _end_stage tEnd s2)
  else
    (Except.ok skip_result, _end_stage tEnd (_skip_stage s1))

/-- A `rich.table.Table` as built by `get_timing_report`: the two
columns with their headers and footers, and the added rows. -/
structure RTable where
  columns : List (String × String)
  rows : List (String × String)
  deriving DecidableEq, Repr

/-- `DriverScript.get_timing_report()` with `datetime.now()` observing
time `tNow`: a table with columns `Stage` (footer `Total`) and
`Duration` (footer `str(now - start_time)`), and one row per
`durations` entry, in insertion order, formatting each duration with
`str`. -/
def get_timing_report {υ : Type} (tNow : Int) (s : DriverState υ) :
    RTable :=
  { columns := [("Stage", "Total"),
                ("Duration", strTimedelta (tNow - s.start_time))]
    rows := s.durations.map (fun p => (p.1, strTimedelta p.2)) }

/-- Python `s.startswith(pre)`: the characters of `pre` are a prefix of
the characters of `s`. -/
def strStartsWith (s pre : String) : Bool :=
  pre.toList.isPrefixOf s.toList

/-- `DriverScript._current_arg_is_long_flag(args)`:
`len(args) > 0 and args[0].startswith("--")`. -/
def _current_arg_is_long_flag (args : List String) : Bool :=
  match args with
  | a :: _ => strStartsWith a "--"
  | [] => false

/-- `DriverScript._next_arg_is_flag(args)`:
`len(args) > 1 and args[1].startswith("-")`. -/
def _next_arg_is_flag (args : List String) : Bool :=
  match args with
  | _ :: b :: _ => strStartsWith b "-"
  | _ => false

/-- Split a character list at every `'\n'` (Python `str.split('\n')`
on the character level): `n` newlines give `n + 1` (possibly empty)
newline-free segments. -/
def splitNL : List Char → List (List Char)
  | [] => [[]]
  | c :: cs =>
    if c = '\n' then [] :: splitNL cs
    else
      match splitNL cs with
      | h :: t => (c :: h) :: t
      | [] => [[c]]

/-- `DriverScript._quote_arg(arg)`:
`re.compile(r"(.*\s.*)").sub(r"'\1'", arg)` when the pattern is found in
`arg`, else `arg` unchanged.

The substitution semantics of this specific pattern, unfolded: `.`
matches any character except `'\n'` while `\s` also matches `'\n'`, and
the quantifiers are greedy, so a match exists from a position exactly
when some `\s` character occurs at or after it, and the leftmost match
then runs from that position through the end of the line FOLLOWING the
first `'\n'` in range (the greedy first `.*` extends to the first
`'\n'`, `\s` consumes that `'\n'`, and the second `.*` extends to just
before the next `'\n'` or the end); with no `'\n'` in range the match is
the whole remainder.  `re.sub` wraps each such non-overlapping match in
single quotes.  Hence: an argument with no `\s` character is unchanged;
otherwise, splitting the argument into its newline-separated segments
`l1, l2, ..., lk`, the first match is `l1` (all of it, when `k = 1`) or
`l1 ++ '\n' ++ l2`, and each later match is `'\n' ++ li` — each chunk
wrapped in quotes, with nothing escaped. -/
def _quote_arg (arg : String) : String :=
  let s := arg.toList
  if ¬ s.any isPySpace then arg
  else
    String.mk
      (match splitNL s with
       | [] => s
       | [_] => '\'' :: s ++ ['\'']
       | l1 :: l2 :: ls =>
         ('\'' :: (l1 ++ '\n' :: l2) ++ ['\'']) ++
           (ls.map (fun l => '\'' :: '\n' :: l ++ ['\''])).flatten)

/-- The `while args:` loop body of `DriverScript.pretty_print_command`:
produce the output lines for the argument tokens (everything after the
program name).  A lone remaining token (`len(args) == 1`) always goes on
its own line; with at least two tokens remaining, the head goes alone
unless it is a long flag (`--...`) whose successor is not a flag, in
which case the pair is emitted as one line, the value passed through
`_quote_arg`. -/
def prettyLines : List String → List String
  | [] => []
  | [a] => [a]
  | a :: b :: rest =>
    if (! _current_arg_is_long_flag (a :: b :: rest))
        || _next_arg_is_flag (a :: b :: rest) then
      a :: prettyLines (b :: rest)
    else
      (a ++ " " ++ _quote_arg b) :: prettyLines rest

/-- `DriverScript.pretty_print_command(command, indent=4)` given the
token list produced by `shlex.split(command)`: pop the program name
(`args.pop(0)` raises `IndexError` on an empty token list — the `none`
case), run the formatting loop on the rest, and join the lines with
`" \\\n"` followed by `indent` spaces. -/
def pretty_print_command (tokens : List String) (indent : Nat) :
    Option String :=
  match tokens with
  | [] => none
  | prog :: args =>
    some (String.intercalate (" \\\n" ++ String.mk (List.replicate indent ' '))
      (prog :: prettyLines args))

/-- POSIX shell word splitting on the quote-free, escape-free fragment:
`shlex.split` on input containing no quote or escape characters splits
on runs of its whitespace characters and drops empty words.  The `fuel`
argument makes the recursion structural; `splitWords` supplies the
input's length, which suffices because each step consumes at least one
character, so the `fuel = 0` fallback (an empty word list) is reached
only on the empty remainder. -/
def splitWordsFuel : Nat → List Char → List String
  | _, [] => []
  | 0, _ :: _ => []
  | fuel + 1, c :: rest =>
    if isShlexSpace c then splitWordsFuel fuel rest
    else
      String.mk (c :: rest.takeWhile (fun d => ¬ isShlexSpace d)) ::
        splitWordsFuel fuel (rest.dropWhile (fun d => ¬ isShlexSpace d))

/-- `shlex.split` on the quote-free, escape-free fragment. -/
def splitWords (s : List Char) : List String :=
  splitWordsFuel s.length s

/-- `DriverScript.pretty_print_command` on a raw command string in the
quote-free, escape-free fragment of shell syntax: tokenize with
`shlex.split` (modelled by `splitWords`), then format. -/
def pretty_print_command_str (command : String) (indent : Nat) :
    Option String :=
  pretty_print_command (splitWords command.toList) indent

/-! ### Registry lemmas -/

theorem dedupKeepFirst_eq_self {l : List String} (h : l.Nodup) :
    dedupKeepFirst l = l := by
  induction l with
  | nil => simp [dedupKeepFirst]
  | cons x xs ih =>
    rw [List.nodup_cons] at h
    have hf : xs.filter (fun y => y ≠ x) = xs :=
      List.filter_eq_self.mpr (fun a ha => by
        simp only [ne_eq, decide_eq_true_eq]
        exact fun e => h.1 (e ▸ ha))
    rw [dedupKeepFirst, hf, ih h.2]

theorem dedupKeepFirst_append {l : List String} (n : String) (h : l.Nodup) :
    dedupKeepFirst (l ++ [n]) = if n ∈ l then l else l ++ [n] := by
  induction l with
  | nil => simp [dedupKeepFirst]
  | cons x xs ih =>
    rw [List.nodup_cons] at h
    have hxs : xs.filter (fun y => y ≠ x) = xs :=
      List.filter_eq_self.mpr (fun a ha => by
        simp only [ne_eq, decide_eq_true_eq]
        exact fun e => h.1 (e ▸ ha))
    by_cases hnx : n = x
    · subst hnx
      have : (xs ++ [n]).filter (fun y => y ≠ n) = xs := by
        rw [List.filter_append, hxs]
        simp
      rw [List.cons_append, dedupKeepFirst, this, dedupKeepFirst_eq_self h.2]
      simp
    · have : (xs ++ [n]).filter (fun y => y ≠ x) = xs ++ [n] := by
        rw [List.filter_append, hxs]
        simp [hnx]
      rw [List.cons_append, dedupKeepFirst, this, ih h.2]
      by_cases hmem : n ∈ xs
      · simp [hmem, List.mem_cons, hnx]
      · simp [hmem, List.mem_cons, hnx]

theorem _add_stage_valid {n : String} (st : List String)
    (h : pyIsIdentifier n = true) :
    _add_stage n st = (none, dedupKeepFirst (st ++ [n])) := by
  simp [_add_stage, h]

theorem _add_stage_invalid {n : String} (st : List String)
    (h : pyIsIdentifier n = false) :
    _add_stage n st =
      (some ("Stage name '" ++ n ++ "' must be a valid Python identifier."),
        st) := by
  simp [_add_stage, h]

/-- Invariant preserved by any further sequence of registrations: the
registry keeps unique entries, keeps containing `n`, and keeps `n` at
its original position. -/
theorem registerAll_preserves (n : String) (ms : List String) :
    ∀ st : List String, st.Nodup → n ∈ st →
      (registerAll ms st).2.Nodup ∧ n ∈ (registerAll ms st).2 ∧
        List.indexOf n (registerAll ms st).2 = List.indexOf n st := by
  induction ms with
  | nil => intro st h1 h2; exact ⟨h1, h2, rfl⟩
  | cons m rest ih =>
    intro st h1 h2
    by_cases hm : pyIsIdentifier m
    · rw [registerAll, _add_stage_valid st hm, dedupKeepFirst_append m h1]
      by_cases hmem : m ∈ st
      · simp only [hmem, if_true]
        exact ih st h1 h2
      · simp only [hmem, if_false]
        have h1' : (st ++ [m]).Nodup := by
          simp [List.nodup_append, h1, hmem]
        have h2' : n ∈ st ++ [m] := List.mem_append_left _ h2
        have hres := ih (st ++ [m]) h1' h2'
        rw [List.indexOf_append_of_mem h2] at hres
        exact hres
    · rw [registerAll,
        _add_stage_invalid st (Bool.of_not_eq_true hm)]
      exact ⟨h1, h2, rfl⟩

theorem registerAll_append_ok (xs ys : List String) :
    ∀ st st' : List String, registerAll xs st = (none, st') →
      registerAll (xs ++ ys) st = registerAll ys st' := by
  induction xs with
  | nil =>
    intro st st' h
    simp only [registerAll] at h
    cases h
    rfl
  | cons x xs ih =>
    intro st st' h
    rw [List.cons_append, registerAll]
    rw [registerAll] at h
    cases hadd : _add_stage x st with
    | mk o st1 =>
      rw [hadd] at h
      cases o with
      | none => exact ih st1 st' h
      | some e => exact absurd (congrArg Prod.fst h) (by simp)

theorem registerAll_append_err (xs ys : List String) :
    ∀ (st st' : List String) (e : String),
      registerAll xs st = (some e, st') →
      registerAll (xs ++ ys) st = (some e, st') := by
  induction xs with
  | nil =>
    intro st st' e h
    simp only [registerAll] at h
    exact absurd (congrArg Prod.fst h) (by simp)
  | cons x xs ih =>
    intro st st' e h
    rw [List.cons_append, registerAll]
    rw [registerAll] at h
    cases hadd : _add_stage x st with
    | mk o st1 =>
      rw [hadd] at h
      cases o with
      | none => exact ih st1 st' e h
      | some e' => exact h

/-- C6: registering a valid identifier `n` twice, with any other
registrations interleaved, yields a registry equal to the one without
the second registration (the second registration is a no-op, not an
error), containing `n` exactly once, at the position `n` received at
its first registration. -/
theorem register_twice_idempotent
    (n : String) (ms : List String) (r : List String)
    (hn : pyIsIdentifier n = true) (hr : r.Nodup) :
    registerAll (n :: (ms ++ [n])) r = registerAll (n :: ms) r ∧
    (registerAll (n :: ms) r).2.count n = 1 ∧
    List.indexOf n (registerAll (n :: ms) r).2 =
      List.indexOf n (_add_stage n r).2 := by
  have hstep : registerAll (n :: ms) r =
      registerAll ms (dedupKeepFirst (r ++ [n])) := by
    rw [registerAll, _add_stage_valid r hn]
  have hstep2 : registerAll (n :: (ms ++ [n])) r =
      registerAll (ms ++ [n]) (dedupKeepFirst (r ++ [n])) := by
    rw [registerAll, _add_stage_valid r hn]
  have hr1 : (dedupKeepFirst (r ++ [n])).Nodup ∧ n ∈ dedupKeepFirst (r ++ [n]) := by
    rw [dedupKeepFirst_append n hr]
    by_cases hmem : n ∈ r
    · rw [if_pos hmem]
      exact ⟨hr, hmem⟩
    · rw [if_neg hmem]
      refine ⟨?_, by simp⟩
      simp [List.nodup_append, hr, hmem]
  have hpres := registerAll_preserves n ms (dedupKeepFirst (r ++ [n]))
    hr1.1 hr1.2
  refine ⟨?_, ?_, ?_⟩
  · rw [hstep, hstep2]
    cases hres : registerAll ms (dedupKeepFirst (r ++ [n])) with
    | mk o st2 =>
      rw [hres] at hpres
      cases o with
      | none =>
        rw [registerAll_append_ok ms [n] _ st2 hres]
        rw [registerAll, _add_stage_valid st2 hn,
          dedupKeepFirst_append n hpres.1]
        simp only [hpres.2.1, if_true]
        rfl
      | some e =>
        exact registerAll_append_err ms [n] _ st2 e hres
  · rw [hstep]
    exact List.count_eq_one_of_mem hpres.1 hpres.2.1
  · rw [hstep, _add_stage_valid r hn]
    exact hpres.2.2

theorem register_twice_idempotent_witness :
    registerAll ("build" :: (["test"] ++ ["build"])) [] =
        registerAll ("build" :: ["test"]) [] ∧
    (registerAll ("build" :: ["test"]) []).2.count "build" = 1 ∧
    List.indexOf "build" (registerAll ("build" :: ["test"]) []).2 =
      List.indexOf "build" (_add_stage "build" []).2 :=
  register_twice_idempotent "build" ["test"] [] (by decide) (by decide)

/-- C7 counterexample: the registry is NOT independent between two
subtypes.  Both subtypes start with no `stages` attribute of their own
(`none`) and the base registry empty; a single decorator application
while defining the first subtype registers `"build"` through
`__class__` (statically `DriverScript`), after which the second
subtype's registry view has changed from `[]` to `["build"]`. -/
theorem registry_shared_counterexample :
    stagesView (_add_stage "build" ([] : List String)).2 none = ["build"] ∧
    stagesView ([] : List String) none = [] ∧
    stagesView (_add_stage "build" ([] : List String)).2 none ≠
      stagesView ([] : List String) none := by
  have hview : ∀ b : List String, stagesView b none = b := fun b => rfl
  have hadd : (_add_stage "build" ([] : List String)).2 = ["build"] := by
    rw [_add_stage_valid ([] : List String) (by decide),
      dedupKeepFirst_append "build" List.nodup_nil]
    simp
  refine ⟨by rw [hview, hadd], hview [], ?_⟩
  rw [hview, hadd, hview []]
  simp

/-- C7 amended: the stage registry is shared process-wide across all
script subtypes (it lives on the base class, and `_add_stage` writes
through `__class__`, which is statically the base class): after a
registration from any subtype, every subtype without a `stages`
attribute of its own — and hence every instance of every such subtype —
sees one and the same registry, which now contains the registered
name. -/
theorem registry_shared_across_subtypes
    (base : List String) (n : String) (own1 own2 : Option (List String))
    (hb : base.Nodup) (hn : pyIsIdentifier n = true)
    (h1 : own1 = none) (h2 : own2 = none) :
    stagesView (_add_stage n base).2 own1 =
      stagesView (_add_stage n base).2 own2 ∧
    n ∈ stagesView (_add_stage n base).2 own1 ∧
    stagesView (_add_stage n base).2 own1 = (_add_stage n base).2 := by
  subst h1; subst h2
  refine ⟨rfl, ?_, rfl⟩
  show n ∈ (_add_stage n base).2
  rw [_add_stage_valid base hn, dedupKeepFirst_append n hb]
  by_cases hmem : n ∈ base
  · rw [if_pos hmem]
    exact hmem
  · rw [if_neg hmem]
    simp

theorem registry_shared_across_subtypes_witness :
    stagesView (_add_stage "build" ["existing"]).2 none =
      stagesView (_add_stage "build" ["existing"]).2 none ∧
    "build" ∈ stagesView (_add_stage "build" ["existing"]).2 none ∧
    stagesView (_add_stage "build" ["existing"]).2 none =
      (_add_stage "build" ["existing"]).2 :=
  registry_shared_across_subtypes ["existing"] "build" none none
    (by decide) (by decide) rfl rfl

/-- C8: registering a string that is not a valid Python identifier
fails: the raised message names the offending string, and the shared
registry is left unchanged. -/
theorem invalid_stage_name_rejected (n : String) (r : List String)
    (h : pyIsIdentifier n = false) :
    (_add_stage n r).1 =
      some ("Stage name '" ++ n ++ "' must be a valid Python identifier.") ∧
    (_add_stage n r).2 = r ∧
    ∃ pre post : String,
      "Stage name '" ++ n ++ "' must be a valid Python identifier." =
        pre ++ n ++ post := by
  rw [_add_stage_invalid r h]
  exact ⟨rfl, rfl,
    ⟨"Stage name '", "' must be a valid Python identifier.", rfl⟩⟩

theorem invalid_stage_name_rejected_witness :
    (_add_stage "my-stage" ["x"]).1 =
      some ("Stage name '" ++ "my-stage" ++
        "' must be a valid Python identifier.") ∧
    (_add_stage "my-stage" ["x"]).2 = ["x"] ∧
    ∃ pre post : String,
      "Stage name '" ++ "my-stage" ++
          "' must be a valid Python identifier." =
        pre ++ "my-stage" ++ post :=
  invalid_stage_name_rejected "my-stage" ["x"] (by decide)

/-! ### Ledger (dict) lemmas -/

theorem lookup_dictAssign (k : String) (v : Int) (d : List (String × Int)) :
    List.lookup k (dictAssign k v d) = some v := by
  induction d with
  | nil => simp [dictAssign, List.lookup]
  | cons p rest ih =>
    obtain ⟨k', v'⟩ := p
    by_cases h : k' = k
    · subst h
      simp [dictAssign, List.lookup]
    · rw [dictAssign, if_neg h]
      rw [List.lookup]
      have : (k == k') = false := by
        simp [Ne.symm h]
      rw [this]
      exact ih

theorem count_keys_dictAssign (k : String) (v : Int)
    (d : List (String × Int)) (h : (d.map Prod.fst).Nodup) :
    ((dictAssign k v d).map Prod.fst).count k = 1 := by
  induction d with
  | nil => simp [dictAssign]
  | cons p rest ih =>
    obtain ⟨k', v'⟩ := p
    simp only [List.map_cons, List.nodup_cons] at h
    by_cases hk : k' = k
    · subst hk
      rw [dictAssign, if_pos rfl]
      have : (rest.map Prod.fst).count k' = 0 :=
        List.count_eq_zero.mpr h.1
      simp [List.count_cons, this]
    · rw [dictAssign, if_neg hk]
      simp [List.count_cons, hk, ih h.2]

theorem mem_dictAssign {q : String × Int} (k : String) (v : Int)
    (d : List (String × Int)) (hq : q ∈ dictAssign k v d) :
    q = (k, v) ∨ q ∈ d := by
  induction d with
  | nil =>
    rw [dictAssign] at hq
    exact Or.inl (List.mem_singleton.mp hq)
  | cons p rest ih =>
    obtain ⟨k', v'⟩ := p
    by_cases hk : k' = k
    · rw [dictAssign, if_pos hk] at hq
      rcases List.mem_cons.mp hq with h1 | h1
      · exact Or.inl h1
      · exact Or.inr (List.mem_cons_of_mem _ h1)
    · rw [dictAssign, if_neg hk] at hq
      rcases List.mem_cons.mp hq with h1 | h1
      · exact Or.inr (h1 ▸ List.mem_cons_self _ _)
      · rcases ih h1 with h2 | h2
        · exact Or.inl h2
        · exact Or.inr (List.mem_cons_of_mem _ h2)

theorem keys_nodup_dictAssign (k : String) (v : Int)
    (d : List (String × Int)) (h : (d.map Prod.fst).Nodup) :
    ((dictAssign k v d).map Prod.fst).Nodup := by
  induction d with
  | nil => simp [dictAssign]
  | cons p rest ih =>
    obtain ⟨k', v'⟩ := p
    simp only [List.map_cons, List.nodup_cons] at h
    by_cases hk : k' = k
    · rw [dictAssign, if_pos hk]
      simp only [List.map_cons, List.nodup_cons]
      exact ⟨hk ▸ h.1, h.2⟩
    · rw [dictAssign, if_neg hk]
      simp only [List.map_cons, List.nodup_cons]
      refine ⟨?_, ih h.2⟩
      intro hmem
      rcases List.mem_map.mp hmem with ⟨q, hq, hfst⟩
      rcases mem_dictAssign k v rest hq with hcase | hcase
      · exact hk (by rw [hcase] at hfst; exact hfst ▸ rfl)
      · exact h.1 (hfst ▸ List.mem_map_of_mem Prod.fst hcase)

/-! ### Stage lifecycle lemmas -/

@[simp] theorem begin_stage_current_stage {υ : Type} (t : Int)
    (n h : String) (s : DriverState υ) :
    (_begin_stage t n h s).current_stage = n := rfl

@[simp] theorem begin_stage_start_time {υ : Type} (t : Int)
    (n h : String) (s : DriverState υ) :
    (_begin_stage t n h s).stage_start_time = t := rfl

@[simp] theorem begin_stage_stages_to_run {υ : Type} (t : Int)
    (n h : String) (s : DriverState υ) :
    (_begin_stage t n h s).stages_to_run = s.stages_to_run := rfl

@[simp] theorem begin_stage_durations {υ : Type} (t : Int)
    (n h : String) (s : DriverState υ) :
    (_begin_stage t n h s).durations = s.durations := rfl

@[simp] theorem begin_stage_log {υ : Type} (t : Int)
    (n h : String) (s : DriverState υ) :
    (_begin_stage t n h s).log =
      s.log ++ [LogEntry.panel ("[bold]" ++ h) "cyan"] := rfl

@[simp] theorem skip_stage_current_stage {υ : Type} (s : DriverState υ) :
    (_skip_stage s).current_stage = s.current_stage := rfl

@[simp] theorem skip_stage_start_time {υ : Type} (s : DriverState υ) :
    (_skip_stage s).stage_start_time = s.stage_start_time := rfl

@[simp] theorem skip_stage_durations {υ : Type} (s : DriverState υ) :
    (_skip_stage s).durations = s.durations := rfl

@[simp] theorem skip_stage_log {υ : Type} (s : DriverState υ) :
    (_skip_stage s).log =
      s.log ++ [LogEntry.line "Skipping this stage."] := rfl

@[simp] theorem end_stage_durations {υ : Type} (t : Int)
    (s : DriverState υ) :
    (_end_stage t s).durations =
      dictAssign s.current_stage (t - s.stage_start_time) s.durations := rfl

@[simp] theorem end_stage_log {υ : Type} (t : Int) (s : DriverState υ) :
    (_end_stage t s).log =
      s.log ++ [LogEntry.line ("`" ++ s.current_stage ++
        "` stage duration:  " ++ strTimedelta (t - s.stage_start_time))] :=
  rfl

@[simp] theorem end_stage_start_time {υ : Type} (t : Int)
    (s : DriverState υ) :
    (_end_stage t s).start_time = s.start_time := rfl

@[simp] theorem end_stage_stages_to_run {υ : Type} (t : Int)
    (s : DriverState υ) :
    (_end_stage t s).stages_to_run = s.stages_to_run := rfl

/-- C1: for a stage whose name is selected in `stages_to_run`, the
wrapped function runs the work function exactly once — on the instance
as prepared by `_begin_stage` and with the forwarded argument — and the
whole call equals `_end_stage` applied to the work's output: the work's
return value is returned unchanged, and the ledger afterwards holds
exactly one entry for the stage, whose recorded duration
`tEnd - tBegin` is non-negative whenever the clock is monotone.  The
hypotheses on `s2` say the work function left the bookkeeping fields
(`current_stage`, `stage_start_time`) and the dict invariant (unique
keys) intact, as any ordinary stage body does. -/
theorem stage_run_calls_work_once {υ α ε ι : Type}
    (stage_name heading : String) (skip_result : α)
    (func : DriverState υ → ι → Except ε α × DriverState υ)
    (tBegin tEnd : Int) (s : DriverState υ) (x : ι) (r : α)
    (s2 : DriverState υ)
    (hmem : stage_name ∈ s.stages_to_run)
    (hrun : func (_begin_stage tBegin stage_name heading s) x =
      (Except.ok r, s2))
    (hcur : s2.current_stage = stage_name)
    (hstart : s2.stage_start_time = tBegin)
    (hnodup : (s2.durations.map Prod.fst).Nodup)
    (hclock : tBegin ≤ tEnd) :
    stage stage_name heading skip_result func tBegin tEnd s x =
      (Except.ok r, _end_stage tEnd s2) ∧
    List.lookup stage_name (_end_stage tEnd s2).durations =
      some (tEnd - tBegin) ∧
    ((_end_stage tEnd s2).durations.map Prod.fst).count stage_name = 1 ∧
    0 ≤ tEnd - tBegin := by
  have hmem1 : stage_name ∈
      (_begin_stage tBegin stage_name heading s).stages_to_run := by
    simpa using hmem
  have hdur : (_end_stage tEnd s2).durations =
      dictAssign stage_name (tEnd - tBegin) s2.durations := by
    rw [end_stage_durations, hcur, hstart]
  refine ⟨?_, ?_, ?_, by omega⟩
  · simp only [stage]
    rw [if_pos hmem1, hrun]
  · rw [hdur]
    exact lookup_dictAssign _ _ _
  · rw [hdur]
    exact count_keys_dictAssign _ _ _ hnodup

def exState : DriverState Nat :=
  { current_stage := "CURRENT STAGE NOT SET"
    durations := []
    stage_start_time := 0
    stages_to_run := ["build"]
    start_time := 0
    log := []
    user := 0 }

def exWork : DriverState Nat → Nat → Except String Nat × DriverState Nat :=
  fun st x => (Except.ok (x + 1), { st with user := st.user + 1 })

def exS2 : DriverState Nat :=
  (exWork (_begin_stage 10 "build" "Building" exState) 5).2

theorem stage_run_calls_work_once_witness :
    stage "build" "Building" (0 : Nat) exWork 10 25 exState 5 =
      (Except.ok 6, _end_stage 25 exS2) ∧
    List.lookup "build" (_end_stage 25 exS2).durations = some (25 - 10) ∧
    ((_end_stage 25 exS2).durations.map Prod.fst).count "build" = 1 ∧
    (0 : Int) ≤ 25 - 10 :=
  stage_run_calls_work_once "build" "Building" 0 exWork 10 25 exState 5 6
    exS2 (by decide) rfl rfl rfl (by decide) (by decide)

/-- C2: for a stage whose name is NOT selected in `stages_to_run`, the
wrapped function never consults the work function (the right-hand side
does not mention `func`): it returns the configured `skip_result` (the
decorator's default is `True`), the ledger still gains an entry for the
stage with duration `tEnd - tBegin` (non-negative under a monotone
clock), and the heading panel is emitted regardless of the skip. -/
theorem stage_skip_returns_skip_result {υ α ε ι : Type}
    (stage_name heading : String) (skip_result : α)
    (func : DriverState υ → ι → Except ε α × DriverState υ)
    (tBegin tEnd : Int) (s : DriverState υ) (x : ι)
    (hmem : stage_name ∉ s.stages_to_run)
    (hclock : tBegin ≤ tEnd) :
    stage stage_name heading skip_result func tBegin tEnd s x =
      (Except.ok skip_result,
        _end_stage tEnd
          (_skip_stage (_begin_stage tBegin stage_name heading s))) ∧
    List.lookup stage_name
        (_end_stage tEnd
          (_skip_stage (_begin_stage tBegin stage_name heading s))).durations =
      some (tEnd - tBegin) ∧
    LogEntry.panel ("[bold]" ++ heading) "cyan" ∈
      (_end_stage tEnd
        (_skip_stage (_begin_stage tBegin stage_name heading s))).log ∧
    0 ≤ tEnd - tBegin := by
  have hmem1 : stage_name ∉
      (_begin_stage tBegin stage_name heading s).stages_to_run := by
    simpa using hmem
  refine ⟨?_, ?_, ?_, by omega⟩
  · simp only [stage]
    rw [if_neg hmem1]
  · rw [end_stage_durations, skip_stage_durations, skip_stage_current_stage,
      skip_stage_start_time, begin_stage_current_stage,
      begin_stage_start_time, begin_stage_durations]
    exact lookup_dictAssign _ _ _
  · simp

def exWorkBool :
    DriverState Nat → Nat → Except String Bool × DriverState Nat :=
  fun st _ => (Except.ok false, st)

theorem stage_skip_returns_skip_result_witness :
    stage "deploy" "Deploying" true exWorkBool 10 25 exState 5 =
      (Except.ok true,
        _end_stage 25
          (_skip_stage (_begin_stage 10 "deploy" "Deploying" exState))) ∧
    List.lookup "deploy"
        (_end_stage 25
          (_skip_stage (_begin_stage 10 "deploy" "Deploying" exState))).durations =
      some (25 - 10) ∧
    LogEntry.panel ("[bold]" ++ "Deploying") "cyan" ∈
      (_end_stage 25
        (_skip_stage (_begin_stage 10 "deploy" "Deploying" exState))).log ∧
    (0 : Int) ≤ 25 - 10 :=
  stage_skip_returns_skip_result "deploy" "Deploying" true exWorkBool 10 25
    exState 5 (by decide) (by decide)

/-- C3: when the work function raises, `_end_stage` still runs — exactly
once, on the state as the work left it — so the ledger gains an entry
for the stage recording the time up to the failure, and then the very
same error value `e` propagates out of the wrapped function, neither
suppressed nor wrapped. -/
theorem stage_error_propagates_after_bookkeeping {υ α ε ι : Type}
    (stage_name heading : String) (skip_result : α)
    (func : DriverState υ → ι → Except ε α × DriverState υ)
    (tBegin tEnd : Int) (s : DriverState υ) (x : ι) (e : ε)
    (s2 : DriverState υ)
    (hmem : stage_name ∈ s.stages_to_run)
    (hrun : func (_begin_stage tBegin stage_name heading s) x =
      (Except.error e, s2))
    (hcur : s2.current_stage = stage_name)
    (hstart : s2.stage_start_time = tBegin) :
    stage stage_name heading skip_result func tBegin tEnd s x =
      (Except.error e, _end_stage tEnd s2) ∧
    List.lookup stage_name (_end_stage tEnd s2).durations =
      some (tEnd - tBegin) := by
  have hmem1 : stage_name ∈
      (_begin_stage tBegin stage_name heading s).stages_to_run := by
    simpa using hmem
  refine ⟨?_, ?_⟩
  · simp only [stage]
    rw [if_pos hmem1, hrun]
  · rw [end_stage_durations, hcur, hstart]
    exact lookup_dictAssign _ _ _

def exWorkErr :
    DriverState Nat → Nat → Except String Nat × DriverState Nat :=
  fun st _ => (Except.error "boom", st)

theorem stage_error_propagates_after_bookkeeping_witness :
    stage "build" "Building" (0 : Nat) exWorkErr 10 25 exState 5 =
      (Except.error "boom",
        _end_stage 25 (_begin_stage 10 "build" "Building" exState)) ∧
    List.lookup "build"
        (_end_stage 25 (_begin_stage 10 "build" "Building" exState)).durations =
      some (25 - 10) :=
  stage_error_propagates_after_bookkeeping "build" "Building" 0 exWorkErr
    10 25 exState 5 "boom" (_begin_stage 10 "build" "Building" exState)
    (by decide) rfl rfl rfl

/-! ### Timing report -/

def noWork : DriverState Unit → Unit → Except Unit Bool × DriverState Unit :=
  fun st _ => (Except.ok true, st)

/-- A fresh driver whose `stages_to_run` has been populated (as the
driver does from parsed options) before any stage runs. -/
def initWithStages (t0 : Int) (toRun : List String) : DriverState Unit :=
  { initDriverState t0 () with stages_to_run := toRun }

/-- Three stages invoked in order `setup`, `build`, `test`, with the
begin/end clock observations `b1,e1,b2,e2,b3,e3`. -/
def threeStageRun (t0 b1 e1 b2 e2 b3 e3 : Int) : DriverState Unit :=
  (stage "test" "Testing" true noWork b3 e3
    ((stage "build" "Building" true noWork b2 e2
      ((stage "setup" "Setting up" true noWork b1 e1
        (initWithStages t0 ["setup", "build", "test"]) ()).2) ()).2) ()).2

/-- C9: the timing report has one row per ledger entry, in insertion
(execution) order, carrying the stage name and its formatted duration,
plus a footer labelled `Total` whose value is the wall-clock time since
the driver instance was constructed; in the concrete three-stage
scenario the rows are exactly `setup`, `build`, `test` in that order
and the footer total is at least the sum of the three durations. -/
theorem timing_report_rows_and_total
    (t0 b1 e1 b2 e2 b3 e3 tNow : Int)
    (h0 : t0 ≤ b1) (h1 : b1 ≤ e1) (h2 : e1 ≤ b2) (h3 : b2 ≤ e2)
    (h4 : e2 ≤ b3) (h5 : b3 ≤ e3) (h6 : e3 ≤ tNow) :
    (∀ (υ : Type) (tN : Int) (st : DriverState υ),
        (get_timing_report tN st).rows =
          st.durations.map (fun p => (p.1, strTimedelta p.2)) ∧
        (get_timing_report tN st).columns =
          [("Stage", "Total"),
            ("Duration", strTimedelta (tN - st.start_time))]) ∧
    (get_timing_report tNow (threeStageRun t0 b1 e1 b2 e2 b3 e3)).rows =
      [("setup", strTimedelta (e1 - b1)),
        ("build", strTimedelta (e2 - b2)),
        ("test", strTimedelta (e3 - b3))] ∧
    (get_timing_report tNow (threeStageRun t0 b1 e1 b2 e2 b3 e3)).columns =
      [("Stage", "Total"), ("Duration", strTimedelta (tNow - t0))] ∧
    0 ≤ e1 - b1 ∧ 0 ≤ e2 - b2 ∧ 0 ≤ e3 - b3 ∧
    (e1 - b1) + (e2 - b2) + (e3 - b3) ≤ tNow - t0 := by
  refine ⟨fun υ tN st => ⟨rfl, rfl⟩, ?_, ?_, by omega, by omega, by omega,
    by omega⟩
  · simp [threeStageRun, stage, noWork, _begin_stage, print_heading,
      _skip_stage, _end_stage, dictAssign, initWithStages, initDriverState,
      get_timing_report]
  · simp [threeStageRun, stage, noWork, _begin_stage, print_heading,
      _skip_stage, _end_stage, dictAssign, initWithStages, initDriverState,
      get_timing_report]

theorem timing_report_rows_and_total_witness :
    (∀ (υ : Type) (tN : Int) (st : DriverState υ),
        (get_timing_report tN st).rows =
          st.durations.map (fun p => (p.1, strTimedelta p.2)) ∧
        (get_timing_report tN st).columns =
          [("Stage", "Total"),
            ("Duration", strTimedelta (tN - st.start_time))]) ∧
    (get_timing_report 20 (threeStageRun 0 1 3 4 8 9 14)).rows =
      [("setup", strTimedelta (3 - 1)),
        ("build", strTimedelta (8 - 4)),
        ("test", strTimedelta (14 - 9))] ∧
    (get_timing_report 20 (threeStageRun 0 1 3 4 8 9 14)).columns =
      [("Stage", "Total"), ("Duration", strTimedelta (20 - 0))] ∧
    (0 : Int) ≤ 3 - 1 ∧ (0 : Int) ≤ 8 - 4 ∧ (0 : Int) ≤ 14 - 9 ∧
    ((3 : Int) - 1) + (8 - 4) + (14 - 9) ≤ 20 - 0 :=
  timing_report_rows_and_total 0 1 3 4 8 9 14 20 (by decide) (by decide)
    (by decide) (by decide) (by decide) (by decide) (by decide)


/-! ### Command formatter: the claim-side description -/

/-- The Command Formatter's line rule, written from the specification's
own words (for comparison with `prettyLines`, which is written from the
source): processing remaining tokens left to right, a token starting
with `--` is merged on one line with its following token, separated by
a single space (the value re-quoted), exactly when the following token
exists, does not start with `-`, and the remaining token list has
length other than one; every other token is placed alone on its own
line. -/
def claimFormatLines : List String → List String
  | [] => []
  | t :: rest =>
    match rest with
    | [] => [t]
    | v :: rest2 =>
      if strStartsWith t "--" && (! strStartsWith v "-")
          && ((t :: v :: rest2).length != 1) then
        (t ++ " " ++ _quote_arg v) :: claimFormatLines rest2
      else
        t :: claimFormatLines (v :: rest2)

/-- C4: the source's formatting loop produces exactly the lines the
claim describes (for every token list), and on the claim's concrete
example `"tool --name value --verbose"` with indent 4 the full pipeline
produces the lines `tool`, `--name value`, `--verbose` joined by
`" \\"`, a newline, and four spaces. -/
theorem pretty_print_command_matches_claim :
    (∀ args : List String, prettyLines args = claimFormatLines args) ∧
    pretty_print_command_str "tool --name value --verbose" 4 =
      some "tool \\\n    --name value \\\n    --verbose" := by
  constructor
  · have H : ∀ (n : Nat) (args : List String), args.length ≤ n →
        prettyLines args = claimFormatLines args := by
      intro n
      induction n with
      | zero =>
        intro args hlen
        have : args = [] := List.length_eq_zero.mp (Nat.le_zero.mp hlen)
        subst this
        rfl
      | succ n ih =>
        intro args hlen
        match args with
        | [] => rfl
        | [a] => rfl
        | a :: b :: rest =>
          simp only [List.length_cons] at hlen
          have hb : (b :: rest).length ≤ n := by
            simp only [List.length_cons]
            omega
          have hr : rest.length ≤ n := by omega
          have hlen1 : (((a :: b :: rest).length != 1) : Bool) = true := rfl
          rw [prettyLines, claimFormatLines]
          simp only [_current_arg_is_long_flag, _next_arg_is_flag]
          by_cases hlong : strStartsWith a "--"
          · by_cases hflag : strStartsWith b "-"
            · simp [hlong, hflag, ih (b :: rest) hb]
            · have hflag' : strStartsWith b "-" = false :=
                Bool.of_not_eq_true hflag
              simp [hlong, hflag', hlen1, ih rest hr]
          · have hlong' : strStartsWith a "--" = false :=
              Bool.of_not_eq_true hlong
            simp [hlong', ih (b :: rest) hb]
    exact fun args => H args.length args (Nat.le_refl _)
  · rfl

/-! ### Quoting: newline-chunk structure of the regex substitution -/

/-- Inverse of `splitNL`: interpose `'\n'` between the segments. -/
def joinNL : List (List Char) → List Char
  | [] => []
  | [l] => l
  | l :: l2 :: ls => l ++ '\n' :: joinNL (l2 :: ls)

theorem splitNL_ne_nil (s : List Char) : splitNL s ≠ [] := by
  cases s with
  | nil => simp [splitNL]
  | cons c cs =>
    rw [splitNL]
    by_cases hc : c = '\n'
    · simp [hc]
    · rw [if_neg hc]
      cases splitNL cs <;> simp

theorem splitNL_length (s : List Char) :
    (splitNL s).length = s.count '\n' + 1 := by
  induction s with
  | nil => simp [splitNL]
  | cons c cs ih =>
    by_cases hc : c = '\n'
    · subst hc
      rw [splitNL, if_pos rfl]
      simp [List.count_cons, ih]
    · rw [splitNL, if_neg hc]
      rcases hs : splitNL cs with _ | ⟨h, t⟩
      · exact absurd hs (splitNL_ne_nil cs)
      · rw [hs] at ih
        simp only [List.length_cons] at ih ⊢
        rw [List.count_cons]
        simp only [beq_iff_eq, hc, if_false]
        omega

theorem joinNL_splitNL (s : List Char) : joinNL (splitNL s) = s := by
  induction s with
  | nil => rfl
  | cons c cs ih =>
    rcases hs : splitNL cs with _ | ⟨h, t⟩
    · exact absurd hs (splitNL_ne_nil cs)
    · rw [hs] at ih
      by_cases hc : c = '\n'
      · subst hc
        rw [splitNL, if_pos rfl, hs, joinNL, ih]
        rfl
      · rw [splitNL, if_neg hc, hs]
        cases t with
        | nil =>
          rw [joinNL] at ih ⊢
          rw [ih]
        | cons t1 t2 =>
          rw [joinNL] at ih ⊢
          rw [List.cons_append, ih]

/-- C5 counterexample: the value `"\n\n"` contains whitespace, yet the
substitution does not wrap it in one pair of single quotes: the regex
`.` cannot cross a newline, so the two one-newline matches are quoted
separately, giving `"'\n''\n'"` rather than `"'\n\n'"`. -/
theorem quote_arg_claim_counterexample :
    _quote_arg "\n\n" = "'\n''\n'" ∧
    ("\n\n".toList.any isPySpace) = true ∧
    _quote_arg "\n\n" ≠ "'" ++ "\n\n" ++ "'" := by
  have h1 : _quote_arg "\n\n" = "'\n''\n'" := rfl
  refine ⟨h1, rfl, ?_⟩
  rw [h1]
  decide

/-- C5 amended: for a value containing at most one newline character
(in particular, any single-line value), `_quote_arg` wraps the value,
verbatim and with nothing escaped, in single quotes if and only if it
contains at least one whitespace character, and returns it completely
unchanged otherwise.  (A value with two or more newlines is instead
split into several separately quoted chunks, as the counterexample
shows.) -/
theorem quote_arg_wraps_iff_whitespace (arg : String)
    (hnl : arg.toList.count '\n' ≤ 1) :
    _quote_arg arg =
      if arg.toList.any isPySpace then "'" ++ arg ++ "'" else arg := by
  obtain ⟨l⟩ := arg
  by_cases hsp : (String.mk l).toList.any isPySpace
  · rw [if_pos hsp]
    have hcond : ¬ ¬ ((String.mk l).toList.any isPySpace = true) :=
      fun hcontra => hcontra hsp
    rw [_quote_arg, if_neg hcond]
    have hlen := splitNL_length (String.mk l).toList
    have hj := joinNL_splitNL (String.mk l).toList
    cases hs : splitNL (String.mk l).toList with
    | nil => exact absurd hs (splitNL_ne_nil _)
    | cons l1 t =>
      cases t with
      | nil =>
        show String.mk ('\'' :: (String.mk l).toList ++ ['\'']) =
          "'" ++ String.mk l ++ "'"
        rfl
      | cons l2 ls =>
        rw [hs] at hlen hj
        have hls : ls = [] := by
          refine List.length_eq_zero.mp ?_
          simp only [List.length_cons] at hlen
          have hc : (String.mk l).toList.count '\n' ≤ 1 := hnl
          omega
        subst hls
        rw [joinNL, joinNL] at hj
        show String.mk (('\'' :: (l1 ++ '\n' :: l2) ++ ['\'']) ++
          (([] : List (List Char)).map
            (fun q => '\'' :: '\n' :: q ++ ['\''])).flatten) =
            "'" ++ String.mk l ++ "'"
        rw [show (([] : List (List Char)).map
          (fun q => '\'' :: '\n' :: q ++ ['\''])).flatten = [] from rfl]
        rw [List.append_nil]
        have hdata : (String.mk l).toList = l := rfl
        rw [hdata] at hj
        rw [hj]
        rfl
  · rw [if_neg hsp, _quote_arg, if_pos hsp]

theorem quote_arg_wraps_iff_whitespace_witness :
    ("a b".toList.count '\n' ≤ 1) ∧
    _quote_arg "a b" =
      (if "a b".toList.any isPySpace then "'" ++ "a b" ++ "'" else "a b") :=
  ⟨by decide, quote_arg_wraps_iff_whitespace "a b" (by decide)⟩

/-! ### Empty command -/

theorem splitWordsFuel_all_space (fuel : Nat) :
    ∀ s : List Char, (∀ c ∈ s, isShlexSpace c = true) →
      splitWordsFuel fuel s = [] := by
  induction fuel with
  | zero =>
    intro s h
    cases s <;> rfl
  | succ n ih =>
    intro s h
    cases s with
    | nil => rfl
    | cons c cs =>
      rw [splitWordsFuel, if_pos (h c (List.mem_cons_self c cs))]
      exact ih cs (fun d hd => h d (List.mem_cons_of_mem c hd))

/-- C10: a command that tokenizes to zero tokens — in particular the
empty string or a string of only (shell) whitespace — makes
`pretty_print_command` fail rather than return a formatted string: the
`args.pop(0)` on the empty token list raises `IndexError` (the `none`
case of the embedding); with at least one token the formatter always
returns a string. -/
theorem empty_command_formatter_fails :
    (∀ (command : String) (indent : Nat),
        (∀ c ∈ command.toList, isShlexSpace c = true) →
        pretty_print_command_str command indent = none) ∧
    (∀ (tokens : List String) (indent : Nat), tokens ≠ [] →
        ∃ out, pretty_print_command tokens indent = some out) := by
  constructor
  · intro command indent h
    rw [pretty_print_command_str, splitWords,
      splitWordsFuel_all_space _ _ h]
    rfl
  · intro tokens indent h
    match tokens with
    | [] => exact absurd rfl h
    | t :: rest => exact ⟨_, rfl⟩

theorem empty_command_formatter_fails_witness :
    pretty_print_command_str " \t " 4 = none ∧
    ∃ out, pretty_print_command ["ls"] 4 = some out :=
  ⟨empty_command_formatter_fails.1 " \t " 4 (by decide),
    empty_command_formatter_fails.2 ["ls"] 4 (by decide)⟩
